import Mathlib

/-! Shallow embedding of the descriptor builder and descriptor matcher of the
rastap repository (src/polygon.rs, plus the legacy builder in src/main.rs),
together with theorems checking the natural-language specification against it.

Modelling conventions:
* Rust `f64`/`f32` values are embedded as real numbers (`ℝ`).  The spec's
  "finite coordinates" premise corresponds to the fact that every real number
  is finite; the `f64::MAX` sentinel used to initialise the nearest-neighbour
  window is modelled as `⊤` in `WithTop ℝ`, which is strictly above every
  actual (coerced) distance, exactly as `f64::MAX` is strictly above every
  distance computable from finite coordinates.
* The one place where IEEE semantics are observably different from real
  arithmetic is the matcher's edge ratio: `0.0 / 0.0` is NaN, and `NaN < t`
  is false.  The matcher's division is therefore embedded as an
  `Option ℝ`-valued function (`fdiv`), `none` standing for NaN, and the
  comparison `difference < 0.99` as `diff_lt`, which is false on `none`.
  For every other division reachable in the embedded code the IEEE result is
  a finite real (or an infinity whose comparison verdict coincides with the
  real-arithmetic verdict), so `some (a / b)` is faithful there.
* Vector indexing `v[i]` is embedded as `List.getD`; all theorem statements
  keep the indices in bounds, matching the panic-free executions of the code.
* `find_fit` reports matching pairs on standard output; the embedding returns
  the reported pairs as a list in report order.
-/

open Classical

namespace Rastap

/-- Number of polygon vertices, `POLYGON_EDGES` in src/polygon.rs (line 3). -/
def POLYGON_EDGES : ℕ := 4

/-- The `TOLERANCE` constant of src/polygon.rs (line 4).  It is declared in the
source but `find_fit` hard-codes the literal `0.99` instead of using it. -/
def TOLERANCE : ℝ := 0.01

/-- Star record of src/polygon.rs (lines 8-16); numeric fields become `ℝ`. -/
structure Star where
  id : ℕ
  db_id : ℕ
  ra : ℝ
  dec : ℝ
  ra_rad : ℝ
  dec_rad : ℝ
  magnitude : ℝ

instance : Inhabited Star := ⟨⟨0, 0, 0, 0, 0, 0, 0⟩⟩

/-- Polygon record of src/polygon.rs (lines 19-25). -/
structure Polygon where
  star_index : ℕ
  star_list : List ℕ
  length_list : List ℝ
  center_ra_rad : ℝ
  center_dec_rad : ℝ

/-- Embedding of `polygon_connections`, src/polygon.rs (lines 28-34): the loop
`for i in 1..polygon { sides += polygon - i }`. -/
def polygon_connections (polygon : ℕ) : ℕ :=
  (List.range' 1 (polygon - 1)).foldl (fun sides i => sides + (polygon - i)) 0

/-- Embedding of `star_distance_rad`, src/polygon.rs (lines 37-39):
`sqrt(|Δ ra_rad|) + sqrt(|Δ dec_rad|)`. -/
noncomputable def star_distance_rad (star_a star_b : Star) : ℝ :=
  Real.sqrt |star_b.ra_rad - star_a.ra_rad| + Real.sqrt |star_b.dec_rad - star_a.dec_rad|

/-- Distance from star `i` to star `j` of the list, as used inside
`find_polygons` (src/polygon.rs line 59). -/
noncomputable def dist (l : List Star) (i j : ℕ) : ℝ :=
  star_distance_rad (l.getD i default) (l.getD j default)

/-- One candidate step of the nearest-neighbour window of `find_polygons`
(src/polygon.rs lines 61-75): scan the window left to right, insert the new
pair at the first position whose stored distance is strictly larger, then
discard the last element.  Later equal distances fail the strict `<` test and
are not inserted, which is the tie-breaking behaviour of the source. -/
noncomputable def winsert (j : ℕ) (d : WithTop ℝ) :
    List (ℕ × WithTop ℝ) → List (ℕ × WithTop ℝ)
  | [] => []
  | q :: w => if d < q.2 then ((j, d) :: q :: w).dropLast else q :: winsert j d w

/-- The nearest-neighbour scan of `find_polygons` for anchor `i`
(src/polygon.rs lines 52-77): `star_vec`/`dist_vec` are kept as one list of
pairs because the source inserts and pops both vectors at the same index; the
initial window is `vec![0; 4]` paired with `vec![f64::MAX; 4]`. -/
noncomputable def scan_window (l : List Star) (i : ℕ) : List (ℕ × WithTop ℝ) :=
  (List.range l.length).foldl
    (fun w j => if j = i then w else winsert j (↑(dist l i j)) w)
    (List.replicate POLYGON_EDGES (0, (⊤ : WithTop ℝ)))

/-- State of `star_vec` after src/polygon.rs lines 79-80: prepend the anchor and pop
the last entry. -/
noncomputable def star_vec (l : List Star) (i : ℕ) : List ℕ :=
  (i :: (scan_window l i).map Prod.fst).dropLast

/-- Centroid right-ascension of src/polygon.rs lines 86-92. -/
noncomputable def center_ra (l : List Star) (sv : List ℕ) : ℝ :=
  (sv.map (fun j => (l.getD j default).ra_rad)).sum / (POLYGON_EDGES : ℝ)

/-- Centroid declination of src/polygon.rs lines 87-93. -/
noncomputable def center_dec (l : List Star) (sv : List ℕ) : ℝ :=
  (sv.map (fun j => (l.getD j default).dec_rad)).sum / (POLYGON_EDGES : ℝ)

/-- The raw pairwise connection lengths of src/polygon.rs lines 105-120: the
nested loops `i in 0..len-1`, `n in i+1..len` write the distances in this flat
order into the pre-sized buffer; with `star_vec` of length 4 exactly
`polygon_connections 4 = 6` writes happen, so the buffer equals this list.
(The outer range here includes `i = len - 1`, whose inner range is empty.) -/
noncomputable def raw_lengths (l : List Star) (sv : List ℕ) : List ℝ :=
  ((List.range sv.length).map (fun a =>
    ((List.range sv.length).drop (a + 1)).map (fun n =>
      star_distance_rad (l.getD (sv.getD a 0) default) (l.getD (sv.getD n 0) default)))).flatten

/-- The ascending sort of src/polygon.rs line 122 (`sort_by` with
`partial_cmp`, a total ascending sort on the NaN-free raw lengths). -/
noncomputable def sorted_lengths (l : List Star) (sv : List ℕ) : List ℝ :=
  List.insertionSort (· ≤ ·) (raw_lengths l sv)

/-- Embedding of `longest_length`, src/polygon.rs line 124: the last entry of the sorted
length vector. -/
noncomputable def longest_length (l : List Star) (sv : List ℕ) : ℝ :=
  (sorted_lengths l sv).getD ((sorted_lengths l sv).length - 1) 0

/-- The normalisation loop of src/polygon.rs lines 125-127. -/
noncomputable def norm_lengths (l : List Star) (sv : List ℕ) : List ℝ :=
  (sorted_lengths l sv).map (fun x => x / longest_length l sv)

/-- The polygon that anchor `i` contributes if it survives deduplication
(src/polygon.rs lines 131-137). -/
noncomputable def candidate (l : List Star) (i : ℕ) : Polygon :=
  { star_index := i
    star_list := star_vec l i
    length_list := norm_lengths l (star_vec l i)
    center_ra_rad := center_ra l (star_vec l i)
    center_dec_rad := center_dec l (star_vec l i) }

/-- One anchor iteration of `find_polygons` (src/polygon.rs lines 94-139):
keep the candidate unless a previously stored polygon has an exactly equal
centroid pair. -/
noncomputable def find_step (l : List Star) (acc : List Polygon) (i : ℕ) : List Polygon :=
  if ∃ h ∈ acc, h.center_ra_rad = (candidate l i).center_ra_rad ∧
      h.center_dec_rad = (candidate l i).center_dec_rad then
    acc
  else
    acc ++ [candidate l i]

/-- The polygon accumulation loop of `find_polygons` over all anchors. -/
noncomputable def polys (l : List Star) : List Polygon :=
  (List.range l.length).foldl (find_step l) []

/-- Embedding of `find_polygons`, src/polygon.rs (lines 42-142). -/
noncomputable def find_polygons (l : List Star) : Option (List Polygon) :=
  if l.length < POLYGON_EDGES then none else some (polys l)

/-! Legacy builder of src/main.rs (lines 105-205).  Its `f32` values are
embedded as `ℝ` like the `f64` values of src/polygon.rs; the code is
identical except for line 191, `length_vec[0] = longest_length;`, which is
commented out in src/polygon.rs (line 128) and live in src/main.rs. -/

/-- The polygon that anchor `i` contributes in the legacy builder: the same
as `candidate`, except that src/main.rs line 191 overwrites entry 0 of the
normalised length vector with the unnormalised longest length. -/
noncomputable def candidate_main (l : List Star) (i : ℕ) : Polygon :=
  { star_index := i
    star_list := star_vec l i
    length_list := (norm_lengths l (star_vec l i)).set 0 (longest_length l (star_vec l i))
    center_ra_rad := center_ra l (star_vec l i)
    center_dec_rad := center_dec l (star_vec l i) }

/-- One anchor iteration of the legacy `find_polygons` (src/main.rs). -/
noncomputable def find_step_main (l : List Star) (acc : List Polygon) (i : ℕ) : List Polygon :=
  if ∃ h ∈ acc, h.center_ra_rad = (candidate_main l i).center_ra_rad ∧
      h.center_dec_rad = (candidate_main l i).center_dec_rad then
    acc
  else
    acc ++ [candidate_main l i]

/-- Embedding of the legacy `find_polygons`, src/main.rs (lines 105-205). -/
noncomputable def find_polygons_main (l : List Star) : Option (List Polygon) :=
  if l.length < POLYGON_EDGES then none
  else some ((List.range l.length).foldl (find_step_main l) [])

/-! The descriptor matcher `find_fit` of src/polygon.rs (lines 145-179). -/

/-- IEEE division as used by the matcher: `0.0 / 0.0` is NaN (`none`); every
other division of signature entries yields a value whose comparison with the
tolerance agrees with real division (see the module comment). -/
noncomputable def fdiv (a b : ℝ) : Option ℝ :=
  if a = 0 ∧ b = 0 then none else some (a / b)

/-- The `difference` of src/polygon.rs lines 157-162:
`if a > b { b / a } else { a / b }`. -/
noncomputable def edge_diff (a b : ℝ) : Option ℝ :=
  if a > b then fdiv b a else fdiv a b

/-- The test `difference < 0.99` of src/polygon.rs line 164.  A NaN
difference (`none`) compares false, as in IEEE arithmetic. -/
noncomputable def diff_lt (x : Option ℝ) (t : ℝ) : Bool :=
  match x with
  | none => false
  | some v => if v < t then true else false

/-- The inner edge loop of `find_fit` (src/polygon.rs lines 153-171) over the
listed edge positions: stop with failure at the first edge whose difference is
strictly below the tolerance (`break 'length`), succeed past the end. -/
noncomputable def scan_sim (ipl spl : List ℝ) : List ℕ → Bool
  | [] => true
  | p :: ps =>
    if diff_lt (edge_diff (ipl.getD p 0) (spl.getD p 0)) 0.99 then false
    else scan_sim ipl spl ps

/-- The `similar` verdict of one (image polygon, star polygon) pair: the edge
loop runs over positions `0 .. star_pol.length_list.len() - 1` (exclusive),
src/polygon.rs line 153. -/
noncomputable def similar (ipl spl : List ℝ) : Bool :=
  scan_sim ipl spl (List.range (spl.length - 1))

/-- Embedding of `find_fit`, src/polygon.rs (lines 145-179): for every image polygon and
every star polygon, report the pair when the edge loop succeeds.  The pairs
printed at line 173 are returned as a list in report order. -/
noncomputable def find_fit (image_polygons star_polygons : List Polygon) :
    List (Polygon × Polygon) :=
  (image_polygons.map (fun ip =>
    (star_polygons.filter (fun sp => similar ip.length_list sp.length_list)).map
      (fun sp => (ip, sp)))).flatten

/-! Basic facts about the distance metric and the connection count. -/

theorem polygon_connections_four : polygon_connections POLYGON_EDGES = 6 := by
  decide

theorem star_distance_symm (a b : Star) :
    star_distance_rad a b = star_distance_rad b a := by
  unfold star_distance_rad
  rw [abs_sub_comm a.ra_rad b.ra_rad, abs_sub_comm a.dec_rad b.dec_rad]

theorem star_distance_nonneg (a b : Star) : 0 ≤ star_distance_rad a b := by
  unfold star_distance_rad
  exact add_nonneg (Real.sqrt_nonneg _) (Real.sqrt_nonneg _)

theorem star_distance_self_coords (a b : Star)
    (h1 : a.ra_rad = b.ra_rad) (h2 : a.dec_rad = b.dec_rad) :
    star_distance_rad a b = 0 := by
  unfold star_distance_rad
  rw [h1, h2, sub_self, sub_self, abs_zero, Real.sqrt_zero, add_zero]

/-! Generic facts about the accumulation fold of `find_polygons`.  `find_step`
only ever appends, so every intermediate accumulator is a prefix of the final
polygon list, the first anchor's candidate is always kept, and every stored
polygon is the candidate of some anchor. -/

theorem find_step_prefix (l : List Star) (acc : List Polygon) (r : List ℕ) :
    ∃ t, r.foldl (find_step l) acc = acc ++ t := by
  induction r generalizing acc with
  | nil => exact ⟨[], by simp⟩
  | cons i r ih =>
    rcases ih (find_step l acc i) with ⟨t, ht⟩
    unfold find_step at ht
    by_cases hc : ∃ h ∈ acc, h.center_ra_rad = (candidate l i).center_ra_rad ∧
        h.center_dec_rad = (candidate l i).center_dec_rad
    · rw [List.foldl_cons]
      unfold find_step
      rw [if_pos hc] at ht ⊢
      exact ⟨t, ht⟩
    · rw [List.foldl_cons]
      unfold find_step
      rw [if_neg hc] at ht ⊢
      exact ⟨candidate l i :: t, by rw [ht, List.append_assoc]; rfl⟩

theorem polys_first_kept (l : List Star) (h : 4 ≤ l.length) :
    ∃ t, polys l = candidate l 0 :: t := by
  unfold polys
  have h0 : 0 < l.length := by omega
  obtain ⟨k, hk⟩ : ∃ k, l.length = k + 1 := ⟨l.length - 1, by omega⟩
  rw [hk, List.range_succ_eq_map, List.foldl_cons]
  have hstep : find_step l [] 0 = [candidate l 0] := by
    unfold find_step
    rw [if_neg (by simp)]
    simp
  rw [hstep]
  rcases find_step_prefix l [candidate l 0] (List.map Nat.succ (List.range k)) with ⟨t, ht⟩
  exact ⟨t, by rw [ht]; rfl⟩

theorem mem_polys_candidate (l : List Star) (p : Polygon) (hp : p ∈ polys l) :
    ∃ i < l.length, p = candidate l i := by
  unfold polys at hp
  suffices h : ∀ r : List ℕ, ∀ acc : List Polygon,
      p ∈ r.foldl (find_step l) acc → p ∈ acc ∨ ∃ i ∈ r, p = candidate l i by
    rcases h (List.range l.length) [] hp with h' | h'
    · simp at h'
    · rcases h' with ⟨i, hi, hpi⟩
      exact ⟨i, List.mem_range.mp hi, hpi⟩
  intro r
  induction r with
  | nil => intro acc h; exact Or.inl h
  | cons i r ih =>
    intro acc h
    rw [List.foldl_cons] at h
    rcases ih (find_step l acc i) h with h' | h'
    · unfold find_step at h'
      by_cases hc : ∃ h ∈ acc, h.center_ra_rad = (candidate l i).center_ra_rad ∧
          h.center_dec_rad = (candidate l i).center_dec_rad
      · rw [if_pos hc] at h'
        exact Or.inl h'
      · rw [if_neg hc] at h'
        rcases List.mem_append.mp h' with h'' | h''
        · exact Or.inl h''
        · exact Or.inr ⟨i, List.mem_cons_self i r, by simpa using h''⟩
    · rcases h' with ⟨j, hj, hpj⟩
      exact Or.inr ⟨j, List.mem_cons_of_mem i hj, hpj⟩

/-! The nearest-neighbour window.  `winsert` is the source's bounded
insert-and-pop; `sinsert` is the same ordered insertion without the pop.
Folding `winsert` over the candidates equals taking the first four entries of
the `sinsert` fold, and the `sinsert` fold builds the stable ordered insertion
sort of the candidate list (ties resolved towards the earlier-scanned index,
because a later equal distance fails the strict `<` test). -/

/-- Unbounded ordered insertion: insert before the first strictly larger
stored distance. -/
noncomputable def sinsert (j : ℕ) (d : WithTop ℝ) :
    List (ℕ × WithTop ℝ) → List (ℕ × WithTop ℝ)
  | [] => [(j, d)]
  | q :: w => if d < q.2 then (j, d) :: q :: w else q :: sinsert j d w

/-- Strict lexicographic order on (distance, scan position): the order in
which the window keeps its entries. -/
def plex (a b : ℕ × WithTop ℝ) : Prop :=
  a.2 < b.2 ∨ (a.2 = b.2 ∧ a.1 < b.1)

theorem plex_snd_le {a b : ℕ × WithTop ℝ} (h : plex a b) : a.2 ≤ b.2 := by
  rcases h with h | ⟨h, _⟩
  · exact le_of_lt h
  · exact le_of_eq h

theorem dropLast_cons_take {α : Type} (x : α) (u : List α) (n : ℕ) (h : n ≤ u.length) :
    (x :: u.take n).dropLast = (x :: u).take n := by
  induction u generalizing x n with
  | nil =>
    have hn : n = 0 := by simpa using h
    subst hn
    simp
  | cons a v ih =>
    cases n with
    | zero => simp
    | succ m =>
      have hm : m ≤ v.length := by simpa using h
      have h1 : (x :: (a :: v).take (m + 1)).dropLast = (x :: a :: v.take m).dropLast := by
        simp
      have h2 : (x :: a :: v.take m).dropLast = x :: (a :: v.take m).dropLast :=
        List.dropLast_cons₂
      rw [h1, h2, ih a m hm]
      simp

theorem winsert_take (j : ℕ) (d : WithTop ℝ) (L : List (ℕ × WithTop ℝ)) (n : ℕ)
    (h : n ≤ L.length) :
    winsert j d (L.take n) = (sinsert j d L).take n := by
  induction L generalizing n with
  | nil =>
    have hn : n = 0 := by simpa using h
    subst hn
    simp [winsert, sinsert]
  | cons q t ih =>
    cases n with
    | zero => simp [winsert]
    | succ m =>
      have hm : m ≤ t.length := by simpa using h
      by_cases hd : d < q.2
      · rw [List.take_succ_cons]
        unfold winsert
        rw [if_pos hd]
        unfold sinsert
        rw [if_pos hd]
        have he : (q :: t.take m) = (q :: t).take (m + 1) := by simp
        rw [he, dropLast_cons_take (j, d) (q :: t) (m + 1) (by simpa using h)]
      · rw [List.take_succ_cons]
        unfold winsert
        rw [if_neg hd]
        unfold sinsert
        rw [if_neg hd]
        rw [List.take_succ_cons, ih m hm]

theorem sinsert_length (j : ℕ) (d : WithTop ℝ) (L : List (ℕ × WithTop ℝ)) :
    (sinsert j d L).length = L.length + 1 := by
  induction L with
  | nil => simp [sinsert]
  | cons q t ih =>
    unfold sinsert
    by_cases hd : d < q.2
    · rw [if_pos hd]; simp
    · rw [if_neg hd]; simp [ih]

theorem foldl_winsert_take (cs : List (ℕ × WithTop ℝ)) (L : List (ℕ × WithTop ℝ))
    (h : 4 ≤ L.length) :
    cs.foldl (fun w c => winsert c.1 c.2 w) (L.take 4) =
      (cs.foldl (fun s c => sinsert c.1 c.2 s) L).take 4 := by
  induction cs generalizing L with
  | nil => rfl
  | cons c cs ih =>
    rw [List.foldl_cons, List.foldl_cons,
      winsert_take c.1 c.2 L 4 (by omega),
      ih (sinsert c.1 c.2 L) (by rw [sinsert_length]; omega)]

theorem sinsert_perm (j : ℕ) (d : WithTop ℝ) (L : List (ℕ × WithTop ℝ)) :
    (sinsert j d L).Perm ((j, d) :: L) := by
  induction L with
  | nil => simp [sinsert]
  | cons q t ih =>
    unfold sinsert
    by_cases hd : d < q.2
    · rw [if_pos hd]
    · rw [if_neg hd]
      exact (ih.cons q).trans (List.Perm.swap (j, d) q t)

theorem sinsert_pairwise (j : ℕ) (d : WithTop ℝ) (L : List (ℕ × WithTop ℝ))
    (hL : L.Pairwise plex) (hfst : ∀ q ∈ L, q.1 < j) :
    (sinsert j d L).Pairwise plex := by
  induction L with
  | nil => simp [sinsert, List.pairwise_singleton]
  | cons q t ih =>
    rw [List.pairwise_cons] at hL
    unfold sinsert
    by_cases hd : d < q.2
    · rw [if_pos hd]
      refine List.Pairwise.cons ?_ (List.Pairwise.cons hL.1 hL.2)
      intro r hr
      rcases List.mem_cons.mp hr with hr | hr
      · rw [hr]
        exact Or.inl hd
      · have hle : q.2 ≤ r.2 := plex_snd_le (hL.1 r hr)
        exact Or.inl (lt_of_lt_of_le hd hle)
    · rw [if_neg hd]
      refine List.Pairwise.cons ?_ (ih hL.2 (fun r hr => hfst r (List.mem_cons_of_mem q hr)))
      intro r hr
      have hmem := (sinsert_perm j d t).mem_iff.mp hr
      rcases List.mem_cons.mp hmem with hr' | hr'
      · rw [hr']
        rcases lt_or_eq_of_le (le_of_not_lt hd) with h' | h'
        · exact Or.inl h'
        · exact Or.inr ⟨h', hfst q (List.mem_cons_self q t)⟩
      · exact hL.1 r hr'

theorem sinsert_pads (j : ℕ) (d : WithTop ℝ) (hd : d < ⊤) (s : List (ℕ × WithTop ℝ)) (m : ℕ) :
    sinsert j d (s ++ List.replicate m (0, (⊤ : WithTop ℝ))) =
      sinsert j d s ++ List.replicate m (0, (⊤ : WithTop ℝ)) := by
  induction s with
  | nil =>
    cases m with
    | zero => simp
    | succ k =>
      rw [List.nil_append, List.replicate_succ]
      unfold sinsert
      rw [if_pos hd]
      simp [List.replicate_succ]
  | cons q t ih =>
    by_cases h : d < q.2
    · rw [List.cons_append]
      unfold sinsert
      rw [if_pos h, if_pos h]
      simp
    · rw [List.cons_append]
      unfold sinsert
      rw [if_neg h, if_neg h, ih]
      simp

theorem foldl_sinsert_struct (cs : List (ℕ × WithTop ℝ))
    (hfst : cs.Pairwise (fun a b => a.1 < b.1)) (htop : ∀ c ∈ cs, c.2 < ⊤) :
    ∀ s₀ : List (ℕ × WithTop ℝ), s₀.Pairwise plex →
      (∀ a ∈ s₀, ∀ c ∈ cs, a.1 < c.1) →
      ∃ s, cs.foldl (fun s c => sinsert c.1 c.2 s)
            (s₀ ++ List.replicate 4 (0, (⊤ : WithTop ℝ))) =
          s ++ List.replicate 4 (0, (⊤ : WithTop ℝ)) ∧
        s.Perm (s₀ ++ cs) ∧ s.Pairwise plex := by
  induction cs with
  | nil =>
    intro s₀ hs₀ _
    exact ⟨s₀, rfl, by simp, hs₀⟩
  | cons c cs ih =>
    intro s₀ hs₀ hbound
    rw [List.pairwise_cons] at hfst
    rw [List.foldl_cons,
      sinsert_pads c.1 c.2 (htop c (List.mem_cons_self c cs)) s₀ 4]
    have hs₀c : ∀ a ∈ s₀, a.1 < c.1 :=
      fun a ha => hbound a ha c (List.mem_cons_self c cs)
    have hpair' : (sinsert c.1 c.2 s₀).Pairwise plex :=
      sinsert_pairwise c.1 c.2 s₀ hs₀ hs₀c
    have hbound' : ∀ a ∈ sinsert c.1 c.2 s₀, ∀ b ∈ cs, a.1 < b.1 := by
      intro a ha b hb
      rcases List.mem_cons.mp ((sinsert_perm c.1 c.2 s₀).mem_iff.mp ha) with ha' | ha'
      · rw [ha']
        exact hfst.1 b hb
      · exact hbound a ha' b (List.mem_cons_of_mem c hb)
    rcases ih hfst.2 (fun x hx => htop x (List.mem_cons_of_mem c hx))
        (sinsert c.1 c.2 s₀) hpair' hbound' with ⟨s, hfold, hperm, hpair⟩
    refine ⟨s, hfold, ?_, hpair⟩
    have hstep : (sinsert c.1 c.2 s₀ ++ cs).Perm (c :: (s₀ ++ cs)) :=
      (sinsert_perm c.1 c.2 s₀).append_right cs
    exact (hperm.trans hstep).trans List.perm_middle.symm

/-- The candidate pairs scanned for anchor `i`: every other index of the list
in scan order, tagged with its distance from the anchor. -/
noncomputable def cands (l : List Star) (i : ℕ) : List (ℕ × WithTop ℝ) :=
  ((List.range l.length).filter (fun j => j ≠ i)).map
    (fun j => (j, (↑(dist l i j) : WithTop ℝ)))

theorem scan_window_eq_filter (l : List Star) (i : ℕ) :
    scan_window l i =
      (cands l i).foldl (fun w c => winsert c.1 c.2 w)
        (List.replicate POLYGON_EDGES (0, (⊤ : WithTop ℝ))) := by
  unfold scan_window cands
  generalize List.range l.length = js
  generalize List.replicate POLYGON_EDGES (0, (⊤ : WithTop ℝ)) = w
  induction js generalizing w with
  | nil => rfl
  | cons j js ih =>
    by_cases hj : j = i
    · rw [List.foldl_cons, if_pos hj, List.filter_cons_of_neg (by simpa using hj), ih]
    · rw [List.foldl_cons, if_neg hj, List.filter_cons_of_pos (by simpa using hj),
        List.map_cons, List.foldl_cons, ih]

theorem cands_pairwise_fst (l : List Star) (i : ℕ) :
    (cands l i).Pairwise (fun a b => a.1 < b.1) := by
  unfold cands
  rw [List.pairwise_map]
  exact (List.pairwise_lt_range l.length).sublist (List.filter_sublist _)

theorem cands_snd_lt_top (l : List Star) (i : ℕ) : ∀ c ∈ cands l i, c.2 < ⊤ := by
  intro c hc
  unfold cands at hc
  rcases List.mem_map.mp hc with ⟨j, _, hj⟩
  rw [← hj]
  exact WithTop.coe_lt_top _

theorem cands_mem_snd (l : List Star) (i : ℕ) :
    ∀ c ∈ cands l i, c.2 = (↑(dist l i c.1) : WithTop ℝ) := by
  intro c hc
  rcases List.mem_map.mp hc with ⟨j, _, hj⟩
  rw [← hj]

theorem cands_mem_fst (l : List Star) (i : ℕ) :
    ∀ c ∈ cands l i, c.1 < l.length ∧ c.1 ≠ i := by
  intro c hc
  rcases List.mem_map.mp hc with ⟨j, hjmem, hj⟩
  rw [List.mem_filter] at hjmem
  rw [← hj]
  exact ⟨List.mem_range.mp hjmem.1, by simpa using hjmem.2⟩

theorem mem_cands_of_index (l : List Star) (i j : ℕ) (hj : j < l.length) (hne : j ≠ i) :
    (j, (↑(dist l i j) : WithTop ℝ)) ∈ cands l i := by
  unfold cands
  exact List.mem_map.mpr ⟨j, List.mem_filter.mpr ⟨List.mem_range.mpr hj, by simpa using hne⟩, rfl⟩

theorem length_le_one_of_all_eq {α : Type} (l : List α) (a : α)
    (hn : l.Nodup) (hall : ∀ x ∈ l, x = a) : l.length ≤ 1 := by
  match l with
  | [] => simp
  | [x] => simp
  | x :: y :: t =>
    exfalso
    rw [List.nodup_cons] at hn
    have hx : x = a := hall x (List.mem_cons_self _ _)
    have hy : y = a := hall y (List.mem_cons_of_mem x (List.mem_cons_self _ _))
    exact hn.1 (by rw [hx, ← hy]; exact List.mem_cons_self _ _)

theorem cands_length_ge (l : List Star) (i : ℕ) :
    l.length - 1 ≤ (cands l i).length := by
  unfold cands
  rw [List.length_map]
  have hsplit : (List.range l.length).length =
      ((List.range l.length).filter (fun j => decide (j ≠ i))).length +
        ((List.range l.length).filter (fun j => !(decide (j ≠ i)))).length :=
    List.length_eq_length_filter_add _
  rw [List.length_range] at hsplit
  have hle : ((List.range l.length).filter (fun j => !(decide (j ≠ i)))).length ≤ 1 := by
    refine length_le_one_of_all_eq _ i ((List.nodup_range _).filter _) ?_
    intro x hx
    have := (List.mem_filter.mp hx).2
    simpa using this
  omega

theorem winsert_length (j : ℕ) (d : WithTop ℝ) (w : List (ℕ × WithTop ℝ)) :
    (winsert j d w).length = w.length := by
  induction w with
  | nil => rfl
  | cons q t ih =>
    unfold winsert
    by_cases hd : d < q.2
    · rw [if_pos hd]
      simp
    · rw [if_neg hd]
      simp [ih]

theorem scan_window_length (l : List Star) (i : ℕ) :
    (scan_window l i).length = 4 := by
  unfold scan_window
  generalize List.range l.length = js
  suffices h : ∀ w : List (ℕ × WithTop ℝ),
      (js.foldl (fun w j => if j = i then w else winsert j (↑(dist l i j)) w) w).length
        = w.length by
    rw [h]
    simp [POLYGON_EDGES]
  induction js with
  | nil => intro w; rfl
  | cons j js ih =>
    intro w
    rw [List.foldl_cons]
    by_cases hj : j = i
    · rw [if_pos hj, ih]
    · rw [if_neg hj, ih, winsert_length]

theorem star_vec_length (l : List Star) (i : ℕ) : (star_vec l i).length = 4 := by
  unfold star_vec
  rw [List.length_dropLast]
  simp [scan_window_length]

theorem scan_window_struct (l : List Star) (i : ℕ) :
    ∃ s : List (ℕ × WithTop ℝ), s.Perm (cands l i) ∧ s.Pairwise plex ∧
      scan_window l i = ((s ++ List.replicate 4 (0, (⊤ : WithTop ℝ))).take 4) := by
  rcases foldl_sinsert_struct (cands l i) (cands_pairwise_fst l i) (cands_snd_lt_top l i)
      [] List.Pairwise.nil (by simp) with ⟨s, hfold, hperm, hpair⟩
  refine ⟨s, hperm, hpair, ?_⟩
  rw [scan_window_eq_filter]
  have hinit : List.replicate POLYGON_EDGES (0, (⊤ : WithTop ℝ)) =
      (List.replicate 4 (0, (⊤ : WithTop ℝ))).take 4 := by
    simp [POLYGON_EDGES]
  rw [hinit, foldl_winsert_take _ _ (by simp), ← hfold]
  rfl

theorem star_vec_struct (l : List Star) (i : ℕ) (h4 : 4 ≤ l.length) :
    ∃ s : List (ℕ × WithTop ℝ), s.Perm (cands l i) ∧ s.Pairwise plex ∧ 3 ≤ s.length ∧
      star_vec l i = i :: (s.take 3).map Prod.fst := by
  rcases scan_window_struct l i with ⟨s, hperm, hpair, hw⟩
  have hs3 : 3 ≤ s.length := by
    have h1 := cands_length_ge l i
    have h2 := hperm.length_eq
    omega
  refine ⟨s, hperm, hpair, hs3, ?_⟩
  unfold star_vec
  rw [hw]
  set v := (s ++ List.replicate 4 (0, (⊤ : WithTop ℝ))).take 4 with hv
  have hvlen : (v.map Prod.fst).length = 4 := by
    rw [List.length_map, hv, List.length_take, List.length_append, List.length_replicate]
    omega
  have hvtake : v.map Prod.fst = (v.map Prod.fst).take 4 := by
    rw [← hvlen, List.take_length]
  rw [hvtake, dropLast_cons_take i (v.map Prod.fst) 4 (by rw [hvlen])]
  have htake3 : (v.map Prod.fst).take 3 = (s.take 3).map Prod.fst := by
    rw [← List.map_take, hv, List.take_take]
    have hmin : (3 : ℕ) ⊓ 4 = 3 := rfl
    rw [hmin, List.take_append_of_le_length hs3]
  rw [List.take_succ_cons, htake3]

/-- The order "strictly nearer to anchor `i`, or equally near but scanned
earlier": the order in which the window ranks candidate vertices. -/
def near_lex (l : List Star) (i a b : ℕ) : Prop :=
  dist l i a < dist l i b ∨ (dist l i a = dist l i b ∧ a < b)

theorem plex_near_lex (l : List Star) (i : ℕ) (a b : ℕ × WithTop ℝ)
    (ha : a.2 = (↑(dist l i a.1) : WithTop ℝ)) (hb : b.2 = (↑(dist l i b.1) : WithTop ℝ))
    (h : plex a b) : near_lex l i a.1 b.1 := by
  rcases h with h | ⟨h, hfst⟩
  · rw [ha, hb, WithTop.coe_lt_coe] at h
    exact Or.inl h
  · rw [ha, hb, WithTop.coe_eq_coe] at h
    exact Or.inr ⟨h, hfst⟩

theorem map_fst_cands_nodup (l : List Star) (i : ℕ) :
    ((cands l i).map Prod.fst).Nodup := by
  unfold cands
  rw [List.map_map]
  have hid : (Prod.fst ∘ fun j => (j, (↑(dist l i j) : WithTop ℝ))) = id := by
    funext j
    rfl
  rw [hid, List.map_id]
  exact (List.nodup_range _).filter _

/-- Concrete example stars used by the witnesses: four stars on a unit-by-four
grid, giving the rational pairwise distances 1, 2, 3, 3, 2, 1. -/
noncomputable def ex0 : Star := ⟨0, 0, 0, 0, 0, 0, 0⟩

noncomputable def ex1 : Star := ⟨1, 0, 0, 0, 1, 0, 0⟩

noncomputable def ex2 : Star := ⟨2, 0, 0, 0, 0, 4, 0⟩

noncomputable def ex3 : Star := ⟨3, 0, 0, 0, 1, 4, 0⟩

noncomputable def exList : List Star := [ex0, ex1, ex2, ex3]

theorem exList_length : exList.length = 4 := by
  unfold exList
  rfl

/-- Claim C1: every descriptor emitted by `find_polygons` on a list of at
least four stars has a `star_list` of exactly `POLYGON_EDGES = 4` pairwise
distinct indices, starting with the anchor's own index, followed by the three
other stars that are nearest to the anchor under `star_distance_rad`, listed
in ascending distance order, equal distances ranked by scan order (the
earlier-scanned star wins, because a later equal distance fails the strict
`<` window test). -/
theorem claim_C1 (l : List Star) (h4 : 4 ≤ l.length) :
    ∀ p ∈ (find_polygons l).getD [],
      p.star_list.length = POLYGON_EDGES ∧
      p.star_list.Nodup ∧
      p.star_list = p.star_index :: p.star_list.tail ∧
      (∀ j ∈ p.star_list.tail, j < l.length ∧ j ≠ p.star_index) ∧
      p.star_list.tail.Pairwise (near_lex l p.star_index) ∧
      (∀ j ∈ p.star_list.tail, ∀ j', j' < l.length → j' ∉ p.star_list →
        near_lex l p.star_index j j') := by
  intro p hp
  rw [find_polygons, if_neg (by simp only [POLYGON_EDGES]; omega), Option.getD_some] at hp
  obtain ⟨i, hi, rfl⟩ := mem_polys_candidate l p hp
  obtain ⟨s, hperm, hpair, hs3, hsv⟩ := star_vec_struct l i h4
  have hsnd : ∀ q ∈ s, q.2 = (↑(dist l i q.1) : WithTop ℝ) :=
    fun q hq => cands_mem_snd l i q (hperm.mem_iff.mp hq)
  have hfst : ∀ q ∈ s, q.1 < l.length ∧ q.1 ≠ i :=
    fun q hq => cands_mem_fst l i q (hperm.mem_iff.mp hq)
  have hsl : (candidate l i).star_list = star_vec l i := rfl
  have hsi : (candidate l i).star_index = i := rfl
  have htail : (candidate l i).star_list.tail = (s.take 3).map Prod.fst := by
    rw [hsl, hsv]
    rfl
  have hcons : (candidate l i).star_list = i :: (s.take 3).map Prod.fst := by
    rw [hsl, hsv]
  have hmem_tail : ∀ j ∈ (s.take 3).map Prod.fst, ∃ q ∈ s, q.1 = j := by
    intro j hj
    rcases List.mem_map.mp hj with ⟨q, hq, hqj⟩
    exact ⟨q, (List.take_sublist 3 s).mem hq, hqj⟩
  have hbounds : ∀ j ∈ (candidate l i).star_list.tail, j < l.length ∧ j ≠ i := by
    intro j hj
    rw [htail] at hj
    rcases hmem_tail j hj with ⟨q, hq, rfl⟩
    exact hfst q hq
  refine ⟨?_, ?_, ?_, ?_, ?_, ?_⟩
  · rw [hsl, star_vec_length]
    rfl
  · rw [hcons, List.nodup_cons]
    constructor
    · intro hmem
      rcases hmem_tail i hmem with ⟨q, hq, hqi⟩
      exact (hfst q hq).2 hqi
    · have h1 : ((cands l i).map Prod.fst).Nodup := map_fst_cands_nodup l i
      have h2 : (s.map Prod.fst).Nodup := ((hperm.map Prod.fst).nodup_iff).mpr h1
      have h3 : (s.take 3).map Prod.fst = (s.map Prod.fst).take 3 := by
        rw [List.map_take]
      rw [h3]
      exact h2.sublist (List.take_sublist 3 _)
  · rw [hsi, hcons, List.tail_cons]
  · rw [hsi]
    exact hbounds
  · rw [hsi, htail]
    rw [List.pairwise_map]
    have hsub : (s.take 3).Pairwise plex := hpair.sublist (List.take_sublist 3 s)
    refine List.Pairwise.imp_of_mem ?_ hsub
    intro a b ha hb hab
    exact plex_near_lex l i a b (hsnd a ((List.take_sublist 3 s).mem ha))
      (hsnd b ((List.take_sublist 3 s).mem hb)) hab
  · rw [hsi, htail, hcons]
    intro j hj j' hj'lt hj'notin
    have hj'ne : j' ≠ i := by
      intro hji
      exact hj'notin (by rw [hji]; exact List.mem_cons_self _ _)
    have hq' : (j', (↑(dist l i j') : WithTop ℝ)) ∈ s :=
      hperm.mem_iff.mpr (mem_cands_of_index l i j' hj'lt hj'ne)
    have hq'drop : (j', (↑(dist l i j') : WithTop ℝ)) ∈ s.drop 3 := by
      have hsplit : s = s.take 3 ++ s.drop 3 := (List.take_append_drop 3 s).symm
      rcases List.mem_append.mp (by rw [← hsplit]; exact hq') with hmem | hmem
      · exfalso
        apply hj'notin
        have : j' ∈ (s.take 3).map Prod.fst :=
          List.mem_map.mpr ⟨_, hmem, rfl⟩
        exact List.mem_cons_of_mem i this
      · exact hmem
    rcases hmem_tail j hj with ⟨qj, hqj, rfl⟩
    have hqjtake : ∃ qt ∈ s.take 3, qt.1 = qj.1 := by
      rcases List.mem_map.mp (by exact hj) with ⟨qt, hqt, hqteq⟩
      exact ⟨qt, hqt, hqteq⟩
    rcases hqjtake with ⟨qt, hqt, hqteq⟩
    have hcross : ∀ a ∈ s.take 3, ∀ b ∈ s.drop 3, plex a b := by
      have hsplit : s = s.take 3 ++ s.drop 3 := (List.take_append_drop 3 s).symm
      have hp' := hpair
      rw [hsplit] at hp'
      exact (List.pairwise_append.mp hp').2.2
    have hplex := hcross qt hqt _ hq'drop
    have hnl := plex_near_lex l i qt _ (hsnd qt ((List.take_sublist 3 s).mem hqt))
      (hsnd _ hq') hplex
    rw [hqteq] at hnl
    exact hnl

/-- Witness for claim C1 at the concrete four-star grid list. -/
theorem claim_C1_witness :
    4 ≤ exList.length ∧
      (∀ p ∈ (find_polygons exList).getD [],
        p.star_list.length = POLYGON_EDGES ∧
        p.star_list.Nodup ∧
        p.star_list = p.star_index :: p.star_list.tail ∧
        (∀ j ∈ p.star_list.tail, j < exList.length ∧ j ≠ p.star_index) ∧
        p.star_list.tail.Pairwise (near_lex exList p.star_index) ∧
        (∀ j ∈ p.star_list.tail, ∀ j', j' < exList.length → j' ∉ p.star_list →
          near_lex exList p.star_index j j')) :=
  ⟨by rw [exList_length], claim_C1 exList (by rw [exList_length])⟩

/-! Properties of the signature pipeline: lengths, sortedness, normalisation. -/

theorem raw_lengths_length (l : List Star) (sv : List ℕ) (h : sv.length = 4) :
    (raw_lengths l sv).length = 6 := by
  unfold raw_lengths
  rw [h, List.length_flatten, List.map_map]
  rfl

theorem raw_lengths_nonneg (l : List Star) (sv : List ℕ) :
    ∀ x ∈ raw_lengths l sv, 0 ≤ x := by
  intro x hx
  unfold raw_lengths at hx
  rcases List.mem_flatten.mp hx with ⟨L, hL, hxL⟩
  rcases List.mem_map.mp hL with ⟨a, _, rfl⟩
  rcases List.mem_map.mp hxL with ⟨n, _, rfl⟩
  exact star_distance_nonneg _ _

theorem sorted_lengths_perm (l : List Star) (sv : List ℕ) :
    (sorted_lengths l sv).Perm (raw_lengths l sv) :=
  List.perm_insertionSort _ _

theorem sorted_lengths_sorted (l : List Star) (sv : List ℕ) :
    (sorted_lengths l sv).Sorted (· ≤ ·) :=
  List.sorted_insertionSort _ _

theorem sorted_lengths_length (l : List Star) (sv : List ℕ) (h : sv.length = 4) :
    (sorted_lengths l sv).length = 6 := by
  rw [(sorted_lengths_perm l sv).length_eq, raw_lengths_length l sv h]

theorem longest_length_nonneg (l : List Star) (sv : List ℕ) (h : sv.length = 4) :
    0 ≤ longest_length l sv := by
  unfold longest_length
  have h6 := sorted_lengths_length l sv h
  rw [List.getD_eq_getElem _ 0 (by omega)]
  exact raw_lengths_nonneg l sv _
    ((sorted_lengths_perm l sv).mem_iff.mp (List.getElem_mem _))

theorem norm_lengths_length (l : List Star) (sv : List ℕ) (h : sv.length = 4) :
    (norm_lengths l sv).length = 6 := by
  unfold norm_lengths
  rw [List.length_map, sorted_lengths_length l sv h]

theorem norm_lengths_sorted (l : List Star) (sv : List ℕ) (h : sv.length = 4) :
    (norm_lengths l sv).Sorted (· ≤ ·) := by
  unfold norm_lengths
  rw [List.Sorted, List.pairwise_map]
  refine (sorted_lengths_sorted l sv).imp ?_
  intro a b hab
  exact div_le_div_of_nonneg_right hab (longest_length_nonneg l sv h)

theorem norm_lengths_last (l : List Star) (sv : List ℕ) (h : sv.length = 4)
    (hne : longest_length l sv ≠ 0) :
    (norm_lengths l sv).getD ((norm_lengths l sv).length - 1) 0 = 1 := by
  have h6 := sorted_lengths_length l sv h
  have hn6 := norm_lengths_length l sv h
  have h5 : (norm_lengths l sv).length - 1 = 5 := by omega
  rw [h5, List.getD_eq_getElem _ 0 (by omega)]
  simp only [norm_lengths, List.getElem_map]
  have hlast : (sorted_lengths l sv).getD 5 0 = longest_length l sv := by
    unfold longest_length
    rw [h6]
  rw [List.getD_eq_getElem _ 0 (by omega)] at hlast
  rw [hlast, div_self hne]

/-- Claim C2 (amended): every descriptor emitted by `find_polygons` has a
`length_list` of exactly `polygon_connections 4 = 6` entries, each the
corresponding sorted pairwise vertex distance divided by the largest one, and
the list is non-decreasing; its last entry equals `1.0` whenever the largest
pairwise distance among the selected vertices is nonzero.  (When that largest
distance is zero — all four selected vertices coincident — the entries are
the result of the unguarded `0.0 / 0.0` division instead, see claim C9.) -/
theorem claim_C2 (l : List Star) (h4 : 4 ≤ l.length) :
    ∀ p ∈ (find_polygons l).getD [],
      p.length_list.length = polygon_connections POLYGON_EDGES ∧
      p.length_list.Sorted (· ≤ ·) ∧
      p.length_list = (sorted_lengths l p.star_list).map
        (fun x => x / longest_length l p.star_list) ∧
      (longest_length l p.star_list ≠ 0 →
        p.length_list.getD (p.length_list.length - 1) 0 = 1) := by
  intro p hp
  rw [find_polygons, if_neg (by simp only [POLYGON_EDGES]; omega), Option.getD_some] at hp
  obtain ⟨i, hi, rfl⟩ := mem_polys_candidate l p hp
  have hsv : (candidate l i).star_list = star_vec l i := rfl
  have hll : (candidate l i).length_list = norm_lengths l (star_vec l i) := rfl
  have hlen4 : (star_vec l i).length = 4 := star_vec_length l i
  refine ⟨?_, ?_, ?_, ?_⟩
  · rw [hll, norm_lengths_length l _ hlen4, polygon_connections_four]
  · rw [hll]
    exact norm_lengths_sorted l _ hlen4
  · rw [hll, hsv]
    rfl
  · rw [hll, hsv]
    exact norm_lengths_last l _ hlen4

/-- Witness for claim C2 at the concrete four-star grid list. -/
theorem claim_C2_witness :
    4 ≤ exList.length ∧
      (∀ p ∈ (find_polygons exList).getD [],
        p.length_list.length = polygon_connections POLYGON_EDGES ∧
        p.length_list.Sorted (· ≤ ·) ∧
        p.length_list = (sorted_lengths exList p.star_list).map
          (fun x => x / longest_length exList p.star_list) ∧
        (longest_length exList p.star_list ≠ 0 →
          p.length_list.getD (p.length_list.length - 1) 0 = 1)) :=
  ⟨by rw [exList_length], claim_C2 exList (by rw [exList_length])⟩

/-! The degenerate all-coincident configuration: every selected vertex has the
same coordinates, all raw lengths are zero, and the normalisation divides by
a zero `longest_length`. -/

theorem winsert_mem (j : ℕ) (d : WithTop ℝ) (w : List (ℕ × WithTop ℝ)) :
    ∀ q ∈ winsert j d w, q = (j, d) ∨ q ∈ w := by
  induction w with
  | nil => simp [winsert]
  | cons x t ih =>
    intro q hq
    unfold winsert at hq
    by_cases hd : d < x.2
    · rw [if_pos hd] at hq
      have hq' := (List.dropLast_sublist _).mem hq
      rcases List.mem_cons.mp hq' with h | h
      · exact Or.inl h
      · exact Or.inr h
    · rw [if_neg hd] at hq
      rcases List.mem_cons.mp hq with h | h
      · exact Or.inr (by rw [h]; exact List.mem_cons_self x t)
      · rcases ih q h with h' | h'
        · exact Or.inl h'
        · exact Or.inr (List.mem_cons_of_mem x h')

theorem scan_window_mem (l : List Star) (i : ℕ) :
    ∀ q ∈ scan_window l i, q.1 = 0 ∨ q.1 < l.length := by
  unfold scan_window
  suffices h : ∀ js : List ℕ, (∀ j ∈ js, j < l.length) →
      ∀ w : List (ℕ × WithTop ℝ), (∀ q ∈ w, q.1 = 0 ∨ q.1 < l.length) →
      ∀ q ∈ js.foldl (fun w j => if j = i then w else winsert j (↑(dist l i j)) w) w,
        q.1 = 0 ∨ q.1 < l.length by
    refine h (List.range l.length) (fun j hj => List.mem_range.mp hj) _ ?_
    intro q hq
    rw [List.eq_of_mem_replicate hq]
    exact Or.inl rfl
  intro js
  induction js with
  | nil =>
    intro _ w hw q hq
    exact hw q hq
  | cons j js ih =>
    intro hjs w hw q hq
    rw [List.foldl_cons] at hq
    by_cases hj : j = i
    · rw [if_pos hj] at hq
      exact ih (fun x hx => hjs x (List.mem_cons_of_mem j hx)) w hw q hq
    · rw [if_neg hj] at hq
      refine ih (fun x hx => hjs x (List.mem_cons_of_mem j hx)) _ ?_ q hq
      intro r hr
      rcases winsert_mem j _ w r hr with h | h
      · rw [h]
        exact Or.inr (hjs j (List.mem_cons_self j js))
      · exact hw r h

theorem star_vec_mem_bound (l : List Star) (i : ℕ) (hi : i < l.length) (h0 : 0 < l.length) :
    ∀ j ∈ star_vec l i, j < l.length := by
  intro j hj
  unfold star_vec at hj
  have hj' := (List.dropLast_sublist _).mem hj
  rcases List.mem_cons.mp hj' with h | h
  · rw [h]; exact hi
  · rcases List.mem_map.mp h with ⟨q, hq, rfl⟩
    rcases scan_window_mem l i q hq with h' | h'
    · rw [h']; exact h0
    · exact h'

theorem degenerate_candidate (l : List Star) (r c : ℝ) (i : ℕ)
    (hco : ∀ j ∈ star_vec l i, (l.getD j default).ra_rad = r ∧
      (l.getD j default).dec_rad = c) :
    (candidate l i).length_list = List.replicate 6 ((0 : ℝ) / 0) ∧
      longest_length l (star_vec l i) = 0 := by
  have hlen4 : (star_vec l i).length = 4 := star_vec_length l i
  have hraw : raw_lengths l (star_vec l i) = List.replicate 6 0 := by
    rw [List.eq_replicate_iff]
    refine ⟨raw_lengths_length l _ hlen4, ?_⟩
    intro x hx
    unfold raw_lengths at hx
    rcases List.mem_flatten.mp hx with ⟨L, hL, hxL⟩
    rcases List.mem_map.mp hL with ⟨a, ha, rfl⟩
    rcases List.mem_map.mp hxL with ⟨n, hn, rfl⟩
    have ha' : a < (star_vec l i).length := List.mem_range.mp ha
    have hn' : n < (star_vec l i).length :=
      List.mem_range.mp ((List.drop_subset _ _) hn)
    have hmema : (star_vec l i).getD a 0 ∈ star_vec l i := by
      rw [List.getD_eq_getElem _ 0 ha']
      exact List.getElem_mem _
    have hmemn : (star_vec l i).getD n 0 ∈ star_vec l i := by
      rw [List.getD_eq_getElem _ 0 hn']
      exact List.getElem_mem _
    have hca := hco _ hmema
    have hcn := hco _ hmemn
    exact star_distance_self_coords _ _ (by rw [hca.1, hcn.1]) (by rw [hca.2, hcn.2])
  have hsorted : sorted_lengths l (star_vec l i) = List.replicate 6 0 := by
    rw [List.eq_replicate_iff]
    have hperm := sorted_lengths_perm l (star_vec l i)
    constructor
    · rw [hperm.length_eq, hraw]
      rfl
    · intro b hb
      have := hperm.mem_iff.mp hb
      rw [hraw] at this
      exact List.eq_of_mem_replicate this
  have hlongest : longest_length l (star_vec l i) = 0 := by
    unfold longest_length
    rw [hsorted]
    have hl6 : (List.replicate 6 (0 : ℝ)).length = 6 := by rfl
    rw [hl6, List.getD_eq_getElem _ 0 (by rw [hl6]; omega), List.getElem_replicate]
  refine ⟨?_, hlongest⟩
  have hll : (candidate l i).length_list = norm_lengths l (star_vec l i) := rfl
  rw [hll]
  unfold norm_lengths
  rw [hsorted, hlongest, List.map_replicate]

theorem degenerate_first (l : List Star) (r c : ℝ) (h4 : 4 ≤ l.length)
    (hco : ∀ s ∈ l, s.ra_rad = r ∧ s.dec_rad = c) :
    ∃ t, find_polygons l = some (candidate l 0 :: t) ∧
      (candidate l 0).star_index = 0 ∧
      (candidate l 0).length_list = List.replicate 6 ((0 : ℝ) / 0) ∧
      longest_length l (star_vec l 0) = 0 := by
  rcases polys_first_kept l h4 with ⟨t, ht⟩
  have hget : ∀ j ∈ star_vec l 0, (l.getD j default).ra_rad = r ∧
      (l.getD j default).dec_rad = c := by
    intro j hj
    have hjlt := star_vec_mem_bound l 0 (by omega) (by omega) j hj
    rw [List.getD_eq_getElem _ default hjlt]
    exact hco _ (List.getElem_mem _)
  rcases degenerate_candidate l r c 0 hget with ⟨hll, hlg⟩
  refine ⟨t, ?_, rfl, hll, hlg⟩
  rw [find_polygons, if_neg (by simp only [POLYGON_EDGES]; omega), ht]

/-! The deduplication invariant of the polygon accumulation loop. -/

theorem polys_invariant (l : List Star) :
    ∀ k : ℕ,
      (∀ q ∈ (List.range k).foldl (find_step l) [], ∃ i, i < k ∧ q = candidate l i) ∧
      ((List.range k).foldl (find_step l) []).Pairwise
        (fun p q => ¬(p.center_ra_rad = q.center_ra_rad ∧
          p.center_dec_rad = q.center_dec_rad)) ∧
      (∀ i, i < k →
        ((∃ q ∈ (List.range k).foldl (find_step l) [], q.star_index = i) ↔
          (∀ q ∈ (List.range k).foldl (find_step l) [], q.star_index < i →
            ¬(q.center_ra_rad = (candidate l i).center_ra_rad ∧
              q.center_dec_rad = (candidate l i).center_dec_rad)))) := by
  intro k
  induction k with
  | zero => exact ⟨by simp, by simp, by omega⟩
  | succ k ih =>
    obtain ⟨ih1, ih2, ih3⟩ := ih
    rw [List.range_succ, List.foldl_append, List.foldl_cons, List.foldl_nil]
    set acc := (List.range k).foldl (find_step l) [] with hacc
    have hsi : ∀ q ∈ acc, q.star_index < k := by
      intro q hq
      rcases ih1 q hq with ⟨i, hik, rfl⟩
      exact hik
    by_cases hcond : ∃ h ∈ acc, h.center_ra_rad = (candidate l k).center_ra_rad ∧
        h.center_dec_rad = (candidate l k).center_dec_rad
    · rw [find_step, if_pos hcond]
      refine ⟨fun q hq => ?_, ih2, fun i hik => ?_⟩
      · rcases ih1 q hq with ⟨i, hik, rfl⟩
        exact ⟨i, by omega, rfl⟩
      · rcases Nat.lt_succ_iff_lt_or_eq.mp hik with hik' | heq
        · exact ih3 i hik'
        · subst heq
          constructor
          · intro ⟨q, hq, hqi⟩
            exact absurd hqi (by have := hsi q hq; omega)
          · intro hall
            exfalso
            rcases hcond with ⟨h, hh, hcenters⟩
            exact hall h hh (hsi h hh) hcenters
    · rw [find_step, if_neg hcond]
      have hcond' : ∀ p ∈ acc, ¬(p.center_ra_rad = (candidate l k).center_ra_rad ∧
          p.center_dec_rad = (candidate l k).center_dec_rad) :=
        fun p hp hpc => hcond ⟨p, hp, hpc⟩
      refine ⟨fun q hq => ?_, ?_, fun i hik => ?_⟩
      · rcases List.mem_append.mp hq with hq' | hq'
        · rcases ih1 q hq' with ⟨i, hik, rfl⟩
          exact ⟨i, by omega, rfl⟩
        · rcases List.mem_singleton.mp hq' with rfl
          exact ⟨k, by omega, rfl⟩
      · rw [List.pairwise_append]
        refine ⟨ih2, List.pairwise_singleton _ _, ?_⟩
        intro p hp q hq
        rcases List.mem_singleton.mp hq with rfl
        exact hcond' p hp
      · rcases Nat.lt_succ_iff_lt_or_eq.mp hik with hik' | heq
        · have hiff := ih3 i hik'
          constructor
          · intro ⟨q, hq, hqi⟩ q' hq' hq'lt
            rcases List.mem_append.mp hq' with hmem | hmem
            · rcases List.mem_append.mp hq with hmemq | hmemq
              · exact hiff.mp ⟨q, hmemq, hqi⟩ q' hmem hq'lt
              · rcases List.mem_singleton.mp hmemq with rfl
                exact absurd hqi (by simp only [candidate]; omega)
            · rcases List.mem_singleton.mp hmem with rfl
              exact absurd hq'lt (by simp only [candidate]; omega)
          · intro hall
            have hall' : ∀ q ∈ acc, q.star_index < i →
                ¬(q.center_ra_rad = (candidate l i).center_ra_rad ∧
                  q.center_dec_rad = (candidate l i).center_dec_rad) :=
              fun q hq hlt => hall q (List.mem_append_left _ hq) hlt
            rcases hiff.mpr hall' with ⟨q, hq, hqi⟩
            exact ⟨q, List.mem_append_left _ hq, hqi⟩
        · subst heq
          constructor
          · intro _ q hq hqlt
            rcases List.mem_append.mp hq with hmem | hmem
            · exact hcond' q hmem
            · rcases List.mem_singleton.mp hmem with rfl
              exact absurd hqlt (by simp only [candidate]; omega)
          · intro _
            exact ⟨candidate l i, List.mem_append_right _ (List.mem_singleton_self _), rfl⟩

/-- Claim C9: for any anchor of a list of at least four stars whose four
selected vertices (the anchor and its three selected nearest neighbours, the
entries of `star_vec`) all have pairwise identical coordinates, the largest
pairwise length is `0` and the anchor's descriptor carries the normalisation
division performed against that zero divisor — every `length_list` entry is
the unguarded `0.0 / 0.0` (NaN in IEEE arithmetic) — and `find_polygons`
emits it subject only to the ordinary exact-centroid deduplication (it is in
the output iff no earlier-emitted descriptor has an equal centroid pair): the
degenerate geometry itself never guards the division or suppresses the
descriptor. -/
theorem claim_C9 (l : List Star) (i : ℕ) (r c : ℝ) (h4 : 4 ≤ l.length)
    (hi : i < l.length)
    (hco : ∀ j ∈ star_vec l i, (l.getD j default).ra_rad = r ∧
      (l.getD j default).dec_rad = c) :
    longest_length l (star_vec l i) = 0 ∧
    (candidate l i).length_list = List.replicate 6 ((0 : ℝ) / 0) ∧
    ∃ ps, find_polygons l = some ps ∧
      ((∃ q ∈ ps, q.star_index = i) ↔
        (∀ q ∈ ps, q.star_index < i →
          ¬(q.center_ra_rad = (candidate l i).center_ra_rad ∧
            q.center_dec_rad = (candidate l i).center_dec_rad))) := by
  rcases degenerate_candidate l r c i hco with ⟨hll, hlg⟩
  refine ⟨hlg, hll, polys l, ?_, ?_⟩
  · rw [find_polygons, if_neg (by simp only [POLYGON_EDGES]; omega)]
  · exact (polys_invariant l l.length).2.2 i hi

/-- Claim C2 counterexample: on four coincident stars (all coordinates
finite), `find_polygons` emits a descriptor whose last signature entry is the
result of `0.0 / 0.0`, not `1.0`, so the unconditional "last entry equals 1.0"
of the claim is false. -/
theorem claim_C2_cex :
    ∃ p ∈ (find_polygons (List.replicate 4 (default : Star))).getD [],
      p.length_list.getD (p.length_list.length - 1) 0 ≠ 1 := by
  have hco : ∀ s ∈ List.replicate 4 (default : Star), s.ra_rad = 0 ∧ s.dec_rad = 0 := by
    intro s hs
    rw [List.eq_of_mem_replicate hs]
    exact ⟨rfl, rfl⟩
  rcases degenerate_first (List.replicate 4 (default : Star)) 0 0
      (by rw [List.length_replicate]) hco with ⟨t, hfp, _, hll, _⟩
  refine ⟨candidate (List.replicate 4 (default : Star)) 0, ?_, ?_⟩
  · rw [hfp, Option.getD_some]
    exact List.mem_cons_self _ _
  · rw [hll]
    norm_num

/-- Claim C6: an anchor's descriptor appears in the output of
`find_polygons` if and only if no previously emitted descriptor (one kept for
a smaller anchor index) has exactly equal centroid coordinates; consequently
no two emitted descriptors share an equal centroid pair, and on a collision
the earlier-enumerated anchor's descriptor is the one kept. -/
theorem claim_C6 (l : List Star) (h4 : 4 ≤ l.length) :
    ((find_polygons l).getD []).Pairwise
      (fun p q => ¬(p.center_ra_rad = q.center_ra_rad ∧
        p.center_dec_rad = q.center_dec_rad)) ∧
    (∀ q ∈ (find_polygons l).getD [], q = candidate l q.star_index) ∧
    ∀ i < l.length,
      ((∃ q ∈ (find_polygons l).getD [], q.star_index = i) ↔
        (∀ q ∈ (find_polygons l).getD [], q.star_index < i →
          ¬(q.center_ra_rad = (candidate l i).center_ra_rad ∧
            q.center_dec_rad = (candidate l i).center_dec_rad))) := by
  have hfp : (find_polygons l).getD [] = polys l := by
    rw [find_polygons, if_neg (by simp only [POLYGON_EDGES]; omega), Option.getD_some]
  obtain ⟨h1, h2, h3⟩ := polys_invariant l l.length
  rw [hfp]
  refine ⟨h2, ?_, ?_⟩
  · intro q hq
    rcases h1 q hq with ⟨i, _, rfl⟩
    rfl
  · intro i hik
    exact h3 i hik

/-- Witness for claim C6 at the concrete four-star grid list. -/
theorem claim_C6_witness :
    4 ≤ exList.length ∧
      ((find_polygons exList).getD []).Pairwise
        (fun p q => ¬(p.center_ra_rad = q.center_ra_rad ∧
          p.center_dec_rad = q.center_dec_rad)) :=
  ⟨by rw [exList_length], (claim_C6 exList (by rw [exList_length])).1⟩

/-- Claim C7: `star_distance_rad` returns exactly
`sqrt |Δ ra_rad| + sqrt |Δ dec_rad|`, is symmetric in its arguments and
non-negative (and is not the Euclidean distance formula). -/
theorem claim_C7 (star_a star_b : Star) :
    star_distance_rad star_a star_b =
      Real.sqrt |star_a.ra_rad - star_b.ra_rad| +
        Real.sqrt |star_a.dec_rad - star_b.dec_rad| ∧
    star_distance_rad star_a star_b = star_distance_rad star_b star_a ∧
    0 ≤ star_distance_rad star_a star_b := by
  refine ⟨?_, star_distance_symm star_a star_b, star_distance_nonneg star_a star_b⟩
  unfold star_distance_rad
  rw [abs_sub_comm star_b.ra_rad star_a.ra_rad, abs_sub_comm star_b.dec_rad star_a.dec_rad]

/-- Claim C5 counterexample: on a three-star list `find_polygons` returns
`none` — the `Option` has no descriptor list at all — not the empty
descriptor list `some []` that the claim describes. -/
theorem claim_C5_cex :
    find_polygons ([default, default, default] : List Star) = none ∧
      find_polygons ([default, default, default] : List Star) ≠ some [] := by
  constructor
  · unfold find_polygons
    rw [if_pos (by simp [POLYGON_EDGES])]
  · unfold find_polygons
    rw [if_pos (by simp [POLYGON_EDGES])]
    exact Option.noConfusion

/-- Claim C5 (amended): for every star list with fewer than
`POLYGON_EDGES = 4` stars, `find_polygons` returns `none` — a defined,
graceful "not enough stars" signal and not an error — rather than an empty
descriptor list. -/
theorem claim_C5 (l : List Star) (h : l.length < POLYGON_EDGES) :
    find_polygons l = none := by
  unfold find_polygons
  rw [if_pos h]

/-- Witness for claim C5 at a concrete two-star list. -/
theorem claim_C5_witness :
    ([default, default] : List Star).length < POLYGON_EDGES ∧ find_polygons ([default, default] : List Star) = none :=
  ⟨by simp [POLYGON_EDGES], claim_C5 ([default, default] : List Star) (by simp [POLYGON_EDGES])⟩

/-! Properties of the matcher. -/

theorem edge_diff_min_max (a b : ℝ) : edge_diff a b = fdiv (min a b) (max a b) := by
  unfold edge_diff
  by_cases h : a > b
  · rw [if_pos h, min_eq_right (le_of_lt h), max_eq_left (le_of_lt h)]
  · rw [if_neg h, min_eq_left (le_of_not_lt h), max_eq_right (le_of_not_lt h)]

theorem edge_diff_comm (a b : ℝ) : edge_diff a b = edge_diff b a := by
  rw [edge_diff_min_max, edge_diff_min_max, min_comm, max_comm]

theorem diff_lt_none (t : ℝ) : diff_lt none t = false := rfl

theorem edge_diff_zero_zero : edge_diff 0 0 = none := by
  unfold edge_diff fdiv
  rw [if_neg (lt_irrefl 0), if_pos ⟨rfl, rfl⟩]

theorem scan_sim_iff (ipl spl : List ℝ) (ps : List ℕ) :
    scan_sim ipl spl ps = true ↔
      ∀ p ∈ ps, diff_lt (edge_diff (ipl.getD p 0) (spl.getD p 0)) 0.99 = false := by
  induction ps with
  | nil => simp [scan_sim]
  | cons p ps ih =>
    unfold scan_sim
    by_cases hd : diff_lt (edge_diff (ipl.getD p 0) (spl.getD p 0)) 0.99 = true
    · rw [if_pos hd]
      constructor
      · intro hfalse
        exact absurd hfalse Bool.false_ne_true
      · intro hall
        rw [hall p (List.mem_cons_self p ps)] at hd
        exact absurd hd Bool.false_ne_true
    · rw [if_neg hd]
      have hdf : diff_lt (edge_diff (ipl.getD p 0) (spl.getD p 0)) 0.99 = false := by
        simpa using hd
      constructor
      · intro hs q hq
        rcases List.mem_cons.mp hq with heq | hq'
        · rw [heq]
          exact hdf
        · exact ih.mp hs q hq'
      · intro hall
        exact ih.mpr (fun q hq => hall q (List.mem_cons_of_mem p hq))

theorem find_fit_mem (imgs cats : List Polygon) (A B : Polygon) :
    (A, B) ∈ find_fit imgs cats ↔
      A ∈ imgs ∧ B ∈ cats ∧ similar A.length_list B.length_list = true := by
  unfold find_fit
  rw [List.mem_flatten]
  constructor
  · rintro ⟨L, hL, hAB⟩
    rcases List.mem_map.mp hL with ⟨ip, hip, rfl⟩
    rcases List.mem_map.mp hAB with ⟨sp, hsp, heq⟩
    have h1 : ip = A := congrArg Prod.fst heq
    have h2 : sp = B := congrArg Prod.snd heq
    subst h1
    subst h2
    rw [List.mem_filter] at hsp
    exact ⟨hip, hsp.1, by simpa using hsp.2⟩
  · rintro ⟨hA, hB, hsim⟩
    refine ⟨(cats.filter (fun sp => similar A.length_list sp.length_list)).map
      (fun sp => (A, sp)), List.mem_map.mpr ⟨A, hA, rfl⟩, ?_⟩
    exact List.mem_map.mpr ⟨B, List.mem_filter.mpr ⟨hB, by simpa using hsim⟩, rfl⟩

/-- Claim C3: a pair of descriptors with six-entry signatures is reported by
`find_fit` exactly when, for every edge position `p` from 0 to 4 (the final
position 5 is never compared), the IEEE ratio `min(a,b) / max(a,b)` of the two
signature entries at `p` is not strictly below the tolerance `0.99`; every
passing pair of the full cross product is reported, with no ranking,
deduplication, or best-match selection. -/
theorem claim_C3 (imgs cats : List Polygon)
    (hI : ∀ p ∈ imgs, p.length_list.length = 6)
    (hC : ∀ p ∈ cats, p.length_list.length = 6) (A B : Polygon) :
    (A, B) ∈ find_fit imgs cats ↔
      (A ∈ imgs ∧ B ∈ cats ∧
        ∀ p < 5, diff_lt (fdiv (min (A.length_list.getD p 0) (B.length_list.getD p 0))
          (max (A.length_list.getD p 0) (B.length_list.getD p 0))) 0.99 = false) := by
  rw [find_fit_mem]
  constructor
  · rintro ⟨hA, hB, hsim⟩
    refine ⟨hA, hB, ?_⟩
    intro p hp
    rw [← edge_diff_min_max]
    unfold similar at hsim
    rw [hC B hB] at hsim
    exact (scan_sim_iff _ _ _).mp hsim p (List.mem_range.mpr (by omega))
  · rintro ⟨hA, hB, hall⟩
    refine ⟨hA, hB, ?_⟩
    unfold similar
    rw [hC B hB]
    refine (scan_sim_iff _ _ _).mpr ?_
    intro p hp
    rw [edge_diff_min_max]
    exact hall p (by simpa using List.mem_range.mp hp)

/-- The concrete length-6 signatures used by the matcher witnesses. -/
noncomputable def sigOnes : List ℝ := [1, 1, 1, 1, 1, 1]

/-- A length-6 signature whose first three entries are zero (three coincident
vertices), as emitted for a descriptor with repeated points. -/
noncomputable def sigZeros : List ℝ := [0, 0, 0, 1, 1, 1]

noncomputable def polOnes : Polygon := ⟨0, [], sigOnes, 0, 0⟩

noncomputable def polZeros : Polygon := ⟨0, [], sigZeros, 0, 0⟩

theorem diff_lt_one : diff_lt (edge_diff 1 1) 0.99 = false := by
  unfold edge_diff fdiv diff_lt
  rw [if_neg (lt_irrefl (1 : ℝ)), if_neg (by norm_num)]
  norm_num

theorem similar_ones : similar sigOnes sigOnes = true := by
  unfold similar sigOnes
  have h5 : ([(1 : ℝ), 1, 1, 1, 1, 1].length - 1) = 5 := rfl
  rw [h5]
  have hr : List.range 5 = [0, 1, 2, 3, 4] := rfl
  rw [hr]
  unfold scan_sim
  simp only [List.getD_cons_zero, List.getD_cons_succ]
  rw [if_neg (by rw [diff_lt_one]; exact Bool.false_ne_true)]
  unfold scan_sim
  simp only [List.getD_cons_zero, List.getD_cons_succ]
  rw [if_neg (by rw [diff_lt_one]; exact Bool.false_ne_true)]
  unfold scan_sim
  simp only [List.getD_cons_zero, List.getD_cons_succ]
  rw [if_neg (by rw [diff_lt_one]; exact Bool.false_ne_true)]
  unfold scan_sim
  simp only [List.getD_cons_zero, List.getD_cons_succ]
  rw [if_neg (by rw [diff_lt_one]; exact Bool.false_ne_true)]
  unfold scan_sim
  simp only [List.getD_cons_zero, List.getD_cons_succ]
  rw [if_neg (by rw [diff_lt_one]; exact Bool.false_ne_true)]
  rfl

theorem similar_zeros : similar sigZeros sigZeros = true := by
  unfold similar sigZeros
  have h5 : ([(0 : ℝ), 0, 0, 1, 1, 1].length - 1) = 5 := rfl
  rw [h5]
  have hr : List.range 5 = [0, 1, 2, 3, 4] := rfl
  rw [hr]
  unfold scan_sim
  simp only [List.getD_cons_zero, List.getD_cons_succ]
  rw [if_neg (by rw [edge_diff_zero_zero, diff_lt_none]; exact Bool.false_ne_true)]
  unfold scan_sim
  simp only [List.getD_cons_zero, List.getD_cons_succ]
  rw [if_neg (by rw [edge_diff_zero_zero, diff_lt_none]; exact Bool.false_ne_true)]
  unfold scan_sim
  simp only [List.getD_cons_zero, List.getD_cons_succ]
  rw [if_neg (by rw [edge_diff_zero_zero, diff_lt_none]; exact Bool.false_ne_true)]
  unfold scan_sim
  simp only [List.getD_cons_zero, List.getD_cons_succ]
  rw [if_neg (by rw [diff_lt_one]; exact Bool.false_ne_true)]
  unfold scan_sim
  simp only [List.getD_cons_zero, List.getD_cons_succ]
  rw [if_neg (by rw [diff_lt_one]; exact Bool.false_ne_true)]
  rfl

/-- Witness for claim C3 at two concrete one-descriptor lists. -/
theorem claim_C3_witness :
    (∀ p ∈ [polOnes], p.length_list.length = 6) ∧
      ((polOnes, polOnes) ∈ find_fit [polOnes] [polOnes] ↔
        (polOnes ∈ [polOnes] ∧ polOnes ∈ [polOnes] ∧
          ∀ p < 5, diff_lt (fdiv
            (min (polOnes.length_list.getD p 0) (polOnes.length_list.getD p 0))
            (max (polOnes.length_list.getD p 0) (polOnes.length_list.getD p 0)))
              0.99 = false)) :=
  ⟨fun p hp => by rw [List.mem_singleton.mp hp]; rfl,
    claim_C3 [polOnes] [polOnes]
      (fun p hp => by rw [List.mem_singleton.mp hp]; rfl)
      (fun p hp => by rw [List.mem_singleton.mp hp]; rfl) polOnes polOnes⟩

/-- Claim C4 counterexample: a pair of descriptors whose signatures have
both entries equal to `0` at compared edge positions (a `0.0 / 0.0` ratio) is
nevertheless reported by `find_fit`: the NaN ratio fails the strict `< 0.99`
test, so the edge passes instead of failing the pair. -/
theorem claim_C4_cex :
    polZeros.length_list.getD 0 0 = 0 ∧
      (polZeros, polZeros) ∈ find_fit [polZeros] [polZeros] := by
  constructor
  · rfl
  · rw [find_fit_mem]
    exact ⟨List.mem_singleton_self _, List.mem_singleton_self _, similar_zeros⟩

/-- Claim C4 (amended): an edge whose two compared signature entries are both
`0` produces the NaN ratio `0.0 / 0.0`, which never satisfies the strict
`< 0.99` rejection test, so such an edge passes rather than failing the pair;
in particular a pair whose compared entries are all zero is reported as
similar. -/
theorem claim_C4 (ipl spl : List ℝ)
    (hz : ∀ p, p < spl.length - 1 → ipl.getD p 0 = 0 ∧ spl.getD p 0 = 0) :
    edge_diff 0 0 = none ∧
      diff_lt (edge_diff 0 0) 0.99 = false ∧
      similar ipl spl = true := by
  refine ⟨edge_diff_zero_zero, by rw [edge_diff_zero_zero, diff_lt_none], ?_⟩
  unfold similar
  refine (scan_sim_iff _ _ _).mpr ?_
  intro p hp
  rcases hz p (List.mem_range.mp hp) with ⟨h1, h2⟩
  rw [h1, h2, edge_diff_zero_zero, diff_lt_none]

/-- Witness for claim C4 at two all-zero six-entry signatures. -/
theorem claim_C4_witness :
    (∀ p, p < ([(0 : ℝ), 0, 0, 0, 0, 0].length - 1) →
      List.getD [(0 : ℝ), 0, 0, 0, 0, 0] p 0 = 0 ∧
        List.getD [(0 : ℝ), 0, 0, 0, 0, 0] p 0 = 0) ∧
      similar [(0 : ℝ), 0, 0, 0, 0, 0] [(0 : ℝ), 0, 0, 0, 0, 0] = true := by
  have hz : ∀ p, p < ([(0 : ℝ), 0, 0, 0, 0, 0].length - 1) →
      List.getD [(0 : ℝ), 0, 0, 0, 0, 0] p 0 = 0 ∧
        List.getD [(0 : ℝ), 0, 0, 0, 0, 0] p 0 = 0 := by
    intro p hp
    have h5 : ([(0 : ℝ), 0, 0, 0, 0, 0].length - 1) = 5 := rfl
    rw [h5] at hp
    interval_cases p <;> exact ⟨rfl, rfl⟩
  exact ⟨hz, (claim_C4 _ _ hz).2.2⟩

/-- Claim C8: the per-pair tolerance test of `find_fit` is symmetric — if a
pair passes with `A` in the image role and `B` in the catalog role (equal
signature lengths), it also passes with the roles swapped, because the ratio
`min / max` is symmetric in its two arguments. -/
theorem claim_C8 (A B : Polygon)
    (hlen : A.length_list.length = B.length_list.length)
    (hAB : similar A.length_list B.length_list = true) :
    similar B.length_list A.length_list = true := by
  unfold similar at hAB ⊢
  rw [hlen]
  refine (scan_sim_iff _ _ _).mpr ?_
  intro p hp
  rw [edge_diff_comm]
  exact (scan_sim_iff _ _ _).mp hAB p hp

/-- Witness for claim C8 at a concrete matching pair. -/
theorem claim_C8_witness :
    (polOnes.length_list.length = polOnes.length_list.length ∧
      similar polOnes.length_list polOnes.length_list = true) ∧
      similar polOnes.length_list polOnes.length_list = true :=
  ⟨⟨rfl, similar_ones⟩, claim_C8 polOnes polOnes rfl similar_ones⟩

/-! Relation between the legacy builder of src/main.rs and the builder of
src/polygon.rs: identical except that src/main.rs line 191 overwrites entry 0
of the normalised signature with the unnormalised longest length. -/

/-- The per-descriptor effect of src/main.rs line 191. -/
noncomputable def tweak (l : List Star) (p : Polygon) : Polygon :=
  { p with length_list := p.length_list.set 0 (longest_length l p.star_list) }

theorem candidate_main_eq_tweak (l : List Star) (i : ℕ) :
    candidate_main l i = tweak l (candidate l i) := rfl

theorem tweak_center_ra (l : List Star) (p : Polygon) :
    (tweak l p).center_ra_rad = p.center_ra_rad := rfl

theorem tweak_center_dec (l : List Star) (p : Polygon) :
    (tweak l p).center_dec_rad = p.center_dec_rad := rfl

theorem find_polygons_main_eq (l : List Star) :
    find_polygons_main l = Option.map (List.map (tweak l)) (find_polygons l) := by
  unfold find_polygons_main find_polygons
  by_cases h : l.length < POLYGON_EDGES
  · rw [if_pos h, if_pos h]
    rfl
  · rw [if_neg h, if_neg h]
    unfold polys
    have hgen : ∀ r : List ℕ, ∀ acc : List Polygon,
        r.foldl (find_step_main l) (acc.map (tweak l)) =
          (r.foldl (find_step l) acc).map (tweak l) := by
      intro r
      induction r with
      | nil => intro acc; rfl
      | cons i r ih =>
        intro acc
        rw [List.foldl_cons, List.foldl_cons]
        have hiff : (∃ q ∈ acc.map (tweak l),
            q.center_ra_rad = (candidate_main l i).center_ra_rad ∧
            q.center_dec_rad = (candidate_main l i).center_dec_rad) ↔
            (∃ q ∈ acc, q.center_ra_rad = (candidate l i).center_ra_rad ∧
              q.center_dec_rad = (candidate l i).center_dec_rad) := by
          constructor
          · rintro ⟨q, hq, h1, h2⟩
            rcases List.mem_map.mp hq with ⟨q0, hq0, rfl⟩
            exact ⟨q0, hq0, h1, h2⟩
          · rintro ⟨q, hq, h1, h2⟩
            exact ⟨tweak l q, List.mem_map.mpr ⟨q, hq, rfl⟩, h1, h2⟩
        have hstep : find_step_main l (acc.map (tweak l)) i =
            (find_step l acc i).map (tweak l) := by
          unfold find_step_main find_step
          by_cases hc : ∃ q ∈ acc, q.center_ra_rad = (candidate l i).center_ra_rad ∧
              q.center_dec_rad = (candidate l i).center_dec_rad
          · rw [if_pos (hiff.mpr hc), if_pos hc]
          · rw [if_neg (fun hx => hc (hiff.mp hx)), if_neg hc, List.map_append,
              candidate_main_eq_tweak]
            rfl
        rw [hstep, ih]
    have h0 := hgen (List.range l.length) []
    rw [List.map_nil] at h0
    rw [h0]
    rfl

theorem drop_one_set {α : Type} (xs : List α) (v : α) :
    (xs.set 0 v).drop 1 = xs.drop 1 := by
  cases xs <;> rfl

/-- Claim C10 (amended): over the exact real-arithmetic embedding, the legacy
builder of src/main.rs emits exactly the descriptors of the src/polygon.rs
builder transformed by `tweak`: anchor, vertex list and centroid are
identical, and the signatures agree at every position except entry 0, which
the legacy builder overwrites with the unnormalised longest pairwise length
(src/main.rs line 191). -/
theorem claim_C10 (l : List Star) :
    find_polygons_main l = Option.map (List.map (tweak l)) (find_polygons l) ∧
    ∀ p : Polygon,
      (tweak l p).star_index = p.star_index ∧
      (tweak l p).star_list = p.star_list ∧
      (tweak l p).center_ra_rad = p.center_ra_rad ∧
      (tweak l p).center_dec_rad = p.center_dec_rad ∧
      (tweak l p).length_list = p.length_list.set 0 (longest_length l p.star_list) ∧
      (tweak l p).length_list.drop 1 = p.length_list.drop 1 :=
  ⟨find_polygons_main_eq l,
    fun p => ⟨rfl, rfl, rfl, rfl, rfl, drop_one_set p.length_list _⟩⟩

/-! Concrete evaluation of the builder pipeline on the four-star grid list,
used to exhibit the divergence between the two builders. -/

theorem sqrt_four : Real.sqrt 4 = 2 := by
  rw [show (4 : ℝ) = 2 ^ 2 by norm_num, Real.sqrt_sq (by norm_num)]

theorem sd01 : star_distance_rad ex0 ex1 = 1 := by
  unfold star_distance_rad ex0 ex1
  norm_num

theorem sd02 : star_distance_rad ex0 ex2 = 2 := by
  unfold star_distance_rad ex0 ex2
  norm_num [sqrt_four]

theorem sd03 : star_distance_rad ex0 ex3 = 3 := by
  unfold star_distance_rad ex0 ex3
  norm_num [sqrt_four]

theorem sd12 : star_distance_rad ex1 ex2 = 3 := by
  unfold star_distance_rad ex1 ex2
  norm_num [sqrt_four, abs_of_nonpos]

theorem sd13 : star_distance_rad ex1 ex3 = 2 := by
  unfold star_distance_rad ex1 ex3
  norm_num [sqrt_four]

theorem sd23 : star_distance_rad ex2 ex3 = 1 := by
  unfold star_distance_rad ex2 ex3
  norm_num

theorem d01 : dist exList 0 1 = 1 := sd01

theorem d02 : dist exList 0 2 = 2 := sd02

theorem d03 : dist exList 0 3 = 3 := sd03

theorem ex_scan_window : scan_window exList 0 =
    [(1, (↑(1 : ℝ) : WithTop ℝ)), (2, (↑(2 : ℝ) : WithTop ℝ)),
      (3, (↑(3 : ℝ) : WithTop ℝ)), (0, (⊤ : WithTop ℝ))] := by
  have hfold : scan_window exList 0 =
      winsert 3 (↑(dist exList 0 3)) (winsert 2 (↑(dist exList 0 2))
        (winsert 1 (↑(dist exList 0 1))
          [((0 : ℕ), (⊤ : WithTop ℝ)), (0, ⊤), (0, ⊤), (0, ⊤)])) := rfl
  rw [hfold, d01, d02, d03]
  have w1 : winsert 1 (↑(1 : ℝ)) [((0 : ℕ), (⊤ : WithTop ℝ)), (0, ⊤), (0, ⊤), (0, ⊤)] =
      [(1, ↑(1 : ℝ)), (0, ⊤), (0, ⊤), (0, ⊤)] := by
    unfold winsert
    rw [if_pos (WithTop.coe_lt_top 1)]
    rfl
  rw [w1]
  have w2 : winsert 2 (↑(2 : ℝ)) [((1 : ℕ), (↑(1 : ℝ) : WithTop ℝ)), (0, ⊤), (0, ⊤), (0, ⊤)] =
      [(1, ↑(1 : ℝ)), (2, ↑(2 : ℝ)), (0, ⊤), (0, ⊤)] := by
    unfold winsert
    rw [if_neg (by rw [WithTop.coe_lt_coe]; norm_num)]
    unfold winsert
    rw [if_pos (WithTop.coe_lt_top 2)]
    rfl
  rw [w2]
  have w3 : winsert 3 (↑(3 : ℝ))
      [((1 : ℕ), (↑(1 : ℝ) : WithTop ℝ)), (2, ↑(2 : ℝ)), (0, ⊤), (0, ⊤)] =
      [(1, ↑(1 : ℝ)), (2, ↑(2 : ℝ)), (3, ↑(3 : ℝ)), (0, ⊤)] := by
    unfold winsert
    rw [if_neg (by rw [WithTop.coe_lt_coe]; norm_num)]
    unfold winsert
    rw [if_neg (by rw [WithTop.coe_lt_coe]; norm_num)]
    unfold winsert
    rw [if_pos (WithTop.coe_lt_top 3)]
    rfl
  rw [w3]

theorem ex_star_vec : star_vec exList 0 = [0, 1, 2, 3] := by
  unfold star_vec
  rw [ex_scan_window]
  rfl

theorem ex_raw_lengths : raw_lengths exList [0, 1, 2, 3] = [1, 2, 3, 3, 2, 1] := by
  have hraw : raw_lengths exList [0, 1, 2, 3] =
      [star_distance_rad ex0 ex1, star_distance_rad ex0 ex2, star_distance_rad ex0 ex3,
        star_distance_rad ex1 ex2, star_distance_rad ex1 ex3,
        star_distance_rad ex2 ex3] := rfl
  rw [hraw, sd01, sd02, sd03, sd12, sd13, sd23]

theorem ex_sorted_lengths : sorted_lengths exList [0, 1, 2, 3] = [1, 1, 2, 2, 3, 3] := by
  unfold sorted_lengths
  rw [ex_raw_lengths]
  simp only [List.insertionSort, List.orderedInsert]
  norm_num

theorem ex_longest : longest_length exList [0, 1, 2, 3] = 3 := by
  unfold longest_length
  rw [ex_sorted_lengths]
  rfl

theorem ex_norm_lengths : norm_lengths exList [0, 1, 2, 3] =
    [1 / 3, 1 / 3, 2 / 3, 2 / 3, 1, 1] := by
  unfold norm_lengths
  rw [ex_sorted_lengths, ex_longest]
  norm_num

/-- Claim C10 counterexample: on the concrete four-star grid list the two
builders disagree — entry 0 of the first descriptor's signature is the
normalised smallest length `1/3` for src/polygon.rs but the unnormalised
longest length `3` for src/main.rs — so the builders do not emit the same
descriptor sequence. -/
theorem claim_C10_cex : find_polygons_main exList ≠ find_polygons exList := by
  intro heq
  rcases polys_first_kept exList (by rw [exList_length]) with ⟨t, ht⟩
  have hfp : find_polygons exList = some (candidate exList 0 :: t) := by
    rw [find_polygons, if_neg (by rw [exList_length]; simp only [POLYGON_EDGES]; omega), ht]
  have hmain : find_polygons_main exList =
      some (tweak exList (candidate exList 0) :: t.map (tweak exList)) := by
    rw [find_polygons_main_eq, hfp]
    rfl
  rw [hmain, hfp] at heq
  have hlists := Option.some.inj heq
  have hhead : tweak exList (candidate exList 0) = candidate exList 0 :=
    (List.cons_eq_cons.mp hlists).1
  have hll := congrArg Polygon.length_list hhead
  have hlhs : (tweak exList (candidate exList 0)).length_list =
      ((norm_lengths exList (star_vec exList 0)).set 0
        (longest_length exList (star_vec exList 0))) := rfl
  have hrhs : (candidate exList 0).length_list = norm_lengths exList (star_vec exList 0) := rfl
  rw [hlhs, hrhs, ex_star_vec, ex_norm_lengths, ex_longest] at hll
  have hcontr := (List.cons_eq_cons.mp hll).1
  norm_num at hcontr

/-! Concrete degenerate configuration for the claim C9 witness: four
coincident stars at the origin plus one distant star, so that anchor 0's
selected quadruple is coincident while the list as a whole is not. -/

noncomputable def exFar : Star := ⟨4, 0, 0, 0, 1, 4, 0⟩

noncomputable def exDeg : List Star := [ex0, ex0, ex0, ex0, exFar]

theorem exDeg_length : exDeg.length = 5 := rfl

theorem sd00 : star_distance_rad ex0 ex0 = 0 :=
  star_distance_self_coords ex0 ex0 rfl rfl

theorem sd0far : star_distance_rad ex0 exFar = 3 := by
  unfold star_distance_rad ex0 exFar
  norm_num [sqrt_four]

theorem dd01 : dist exDeg 0 1 = 0 := sd00

theorem dd02 : dist exDeg 0 2 = 0 := sd00

theorem dd03 : dist exDeg 0 3 = 0 := sd00

theorem dd04 : dist exDeg 0 4 = 3 := sd0far

theorem exDeg_scan_window : scan_window exDeg 0 =
    [(1, (↑(0 : ℝ) : WithTop ℝ)), (2, (↑(0 : ℝ) : WithTop ℝ)),
      (3, (↑(0 : ℝ) : WithTop ℝ)), (4, (↑(3 : ℝ) : WithTop ℝ))] := by
  have hfold : scan_window exDeg 0 =
      winsert 4 (↑(dist exDeg 0 4)) (winsert 3 (↑(dist exDeg 0 3))
        (winsert 2 (↑(dist exDeg 0 2)) (winsert 1 (↑(dist exDeg 0 1))
          [((0 : ℕ), (⊤ : WithTop ℝ)), (0, ⊤), (0, ⊤), (0, ⊤)]))) := rfl
  rw [hfold, dd01, dd02, dd03, dd04]
  have hne00 : ¬((↑(0 : ℝ) : WithTop ℝ) < ↑(0 : ℝ)) := by
    rw [WithTop.coe_lt_coe]
    exact lt_irrefl 0
  have hne30 : ¬((↑(3 : ℝ) : WithTop ℝ) < ↑(0 : ℝ)) := by
    rw [WithTop.coe_lt_coe]
    norm_num
  have v1 : winsert 1 (↑(0 : ℝ)) [((0 : ℕ), (⊤ : WithTop ℝ)), (0, ⊤), (0, ⊤), (0, ⊤)] =
      [(1, ↑(0 : ℝ)), (0, ⊤), (0, ⊤), (0, ⊤)] := by
    unfold winsert
    rw [if_pos (WithTop.coe_lt_top 0)]
    rfl
  rw [v1]
  have v2 : winsert 2 (↑(0 : ℝ)) [((1 : ℕ), (↑(0 : ℝ) : WithTop ℝ)), (0, ⊤), (0, ⊤), (0, ⊤)] =
      [(1, ↑(0 : ℝ)), (2, ↑(0 : ℝ)), (0, ⊤), (0, ⊤)] := by
    unfold winsert
    rw [if_neg hne00]
    unfold winsert
    rw [if_pos (WithTop.coe_lt_top 0)]
    rfl
  rw [v2]
  have v3 : winsert 3 (↑(0 : ℝ))
      [((1 : ℕ), (↑(0 : ℝ) : WithTop ℝ)), (2, ↑(0 : ℝ)), (0, ⊤), (0, ⊤)] =
      [(1, ↑(0 : ℝ)), (2, ↑(0 : ℝ)), (3, ↑(0 : ℝ)), (0, ⊤)] := by
    unfold winsert
    rw [if_neg hne00]
    unfold winsert
    rw [if_neg hne00]
    unfold winsert
    rw [if_pos (WithTop.coe_lt_top 0)]
    rfl
  rw [v3]
  have v4 : winsert 4 (↑(3 : ℝ))
      [((1 : ℕ), (↑(0 : ℝ) : WithTop ℝ)), (2, ↑(0 : ℝ)), (3, ↑(0 : ℝ)), (0, ⊤)] =
      [(1, ↑(0 : ℝ)), (2, ↑(0 : ℝ)), (3, ↑(0 : ℝ)), (4, ↑(3 : ℝ))] := by
    unfold winsert
    rw [if_neg hne30]
    unfold winsert
    rw [if_neg hne30]
    unfold winsert
    rw [if_neg hne30]
    unfold winsert
    rw [if_pos (WithTop.coe_lt_top 3)]
    rfl
  rw [v4]

theorem exDeg_star_vec : star_vec exDeg 0 = [0, 1, 2, 3] := by
  unfold star_vec
  rw [exDeg_scan_window]
  rfl

/-- Witness for claim C9: four coincident stars plus a distant fifth star —
anchor 0's selected quadruple is coincident although the list is not. -/
theorem claim_C9_witness :
    4 ≤ exDeg.length ∧ 0 < exDeg.length ∧
      (∀ j ∈ star_vec exDeg 0, (exDeg.getD j default).ra_rad = 0 ∧
        (exDeg.getD j default).dec_rad = 0) ∧
      (longest_length exDeg (star_vec exDeg 0) = 0 ∧
        (candidate exDeg 0).length_list = List.replicate 6 ((0 : ℝ) / 0) ∧
        ∃ ps, find_polygons exDeg = some ps ∧
          ((∃ q ∈ ps, q.star_index = 0) ↔
            (∀ q ∈ ps, q.star_index < 0 →
              ¬(q.center_ra_rad = (candidate exDeg 0).center_ra_rad ∧
                q.center_dec_rad = (candidate exDeg 0).center_dec_rad)))) := by
  have hco : ∀ j ∈ star_vec exDeg 0, (exDeg.getD j default).ra_rad = 0 ∧
      (exDeg.getD j default).dec_rad = 0 := by
    rw [exDeg_star_vec]
    intro j hj
    fin_cases hj <;> exact ⟨rfl, rfl⟩
  exact ⟨by rw [exDeg_length]; omega, by rw [exDeg_length]; omega, hco,
    claim_C9 exDeg 0 0 0 (by rw [exDeg_length]; omega) (by rw [exDeg_length]; omega) hco⟩

end Rastap
